import Mathlib

/-!
Shallow embedding of the preprocessing pipeline in `Tutorial.ipynb`
(consolidated cell): load `AirQualityUCI.csv`, impute the `CO(GT)` column
with its mean (`SimpleImputer(strategy='mean')`), drop every row in which
any column equals the sentinel `-200` (`data[(data != -200).all(axis=1)]`),
standardize `CO(GT)`, `PT08.S1(CO)`, `C6H6(GT)` (`StandardScaler`),
min-max scale `T`, `RH`, `AH` (`MinMaxScaler`), derive `DateTime`, `Hour`,
`Day` (`pd.to_datetime(data['Date'] + ' ' + data['Time'])`, `.dt.hour`,
`.dt.day`), and export with `to_csv(..., index=False)`.

Numeric cells are modelled as exact rationals (the notebook works in
float64; the spec states its numeric properties "within floating-point
tolerance", which the exact model renders exactly).  Missing values
(pandas `NaN`) in the imputed column are modelled by `Option`.
-/

namespace Preproc

/-- A pandas cell value as seen by the elementwise comparison `data != -200`:
a numeric value, a string value, or a missing value (`NaN`). -/
inductive Cell where
  | num (q : ℚ)
  | str (s : String)
  | nan
deriving DecidableEq, Repr

/-- One row of the loaded table.  The columns named by the notebook are
explicit fields; `CO(GT)` is `Option ℚ` because it is the imputed column
and may be missing (`NaN`); `others` carries the remaining columns of the
CSV, which the pipeline only ever touches through the sentinel filter. -/
structure Row where
  co : Option ℚ
  pt08 : ℚ
  c6h6 : ℚ
  t : ℚ
  rh : ℚ
  ah : ℚ
  date : String
  time : String
  others : List Cell
deriving DecidableEq, Repr

/-- A row after imputation: `CO(GT)` is now always present. -/
structure RowI where
  co : ℚ
  pt08 : ℚ
  c6h6 : ℚ
  t : ℚ
  rh : ℚ
  ah : ℚ
  date : String
  time : String
  others : List Cell
deriving DecidableEq, Repr

/-- The values of `CO(GT)` that are present (non-`NaN`) in the table:
these are the values `SimpleImputer(strategy='mean')` averages over.
Note that a present sentinel `-200` is NOT missing and enters the mean. -/
def presentCO (t : List Row) : List ℚ :=
  t.filterMap Row.co

/-- The mean `SimpleImputer(strategy='mean')` computes for `CO(GT)`:
the arithmetic mean of the present values, before any substitution. -/
def coMean (t : List Row) : ℚ :=
  (presentCO t).sum / (presentCO t).length

/-- Substitute the imputation mean `m` for a missing `CO(GT)` entry. -/
def imputeRow (m : ℚ) (r : Row) : RowI :=
  ⟨r.co.getD m, r.pt08, r.c6h6, r.t, r.rh, r.ah, r.date, r.time, r.others⟩

/-- The imputation step `data['CO(GT)'] = imputer.fit_transform(data[['CO(GT)']])`.
When every value of the column is missing, `SimpleImputer` drops the
all-`NaN` column and the assignment fails, so the step yields `none`. -/
def impute (t : List Row) : Option (List RowI) :=
  if presentCO t = [] then none else some (t.map (imputeRow (coMean t)))

/-- All cells of an imputed row, in CSV column order (`Date`, `Time`,
named numeric columns, then the pass-through columns). -/
def RowI.cells (r : RowI) : List Cell :=
  [Cell.str r.date, Cell.str r.time, Cell.num r.co, Cell.num r.pt08,
    Cell.num r.c6h6, Cell.num r.t, Cell.num r.rh, Cell.num r.ah] ++ r.others

/-- The pandas elementwise test `cell != -200`: a numeric cell compares
numerically; a string cell never equals the numeric literal `-200`, so the
test is true; `NaN != -200` is true as well. -/
def cellNeSentinel : Cell → Bool
  | Cell.num q => decide (q ≠ -200)
  | Cell.str _ => true
  | Cell.nan => true

/-- The row predicate `(data != -200).all(axis=1)`. -/
def rowKept (r : RowI) : Bool :=
  r.cells.all cellNeSentinel

/-- The Cleaner stage: impute `CO(GT)`, then keep exactly the rows in
which no column equals the sentinel (`data = data[(data != -200).all(axis=1)]`). -/
def cleaner (t : List Row) : Option (List RowI) :=
  (impute t).map (List.filter rowKept)

/-- A cell equals the sentinel exactly when it is the numeric value `-200`. -/
lemma cellNeSentinel_eq_true_iff (c : Cell) :
    cellNeSentinel c = true ↔ c ≠ Cell.num (-200) := by
  cases c with
  | num q =>
      simp only [cellNeSentinel, decide_eq_true_eq, ne_eq, Cell.num.injEq]
  | str s => simp [cellNeSentinel]
  | nan => simp [cellNeSentinel]

/-- A row passes the filter iff none of its cells is the numeric sentinel. -/
lemma rowKept_iff (r : RowI) :
    rowKept r = true ↔ ∀ c ∈ r.cells, c ≠ Cell.num (-200) := by
  simp only [rowKept, List.all_eq_true]
  exact forall₂_congr fun c _ => cellNeSentinel_eq_true_iff c

/-- Unfolding of a successful imputation. -/
lemma impute_eq_some {t : List Row} {ti : List RowI} (h : impute t = some ti) :
    presentCO t ≠ [] ∧ ti = t.map (imputeRow (coMean t)) := by
  by_cases hp : presentCO t = []
  · simp [impute, hp] at h
  · simp only [impute, hp, if_neg, ite_false, Option.some.injEq] at h
    exact ⟨hp, h.symm⟩

/-- Pointwise description of the imputed table. -/
lemma impute_forall₂ {t : List Row} {ti : List RowI} (h : impute t = some ti)
    {P : Row → RowI → Prop} (hP : ∀ r, P r (imputeRow (coMean t) r)) :
    List.Forall₂ P t ti := by
  obtain ⟨-, rfl⟩ := impute_eq_some h
  rw [List.forall₂_map_right_iff, List.forall₂_same]
  exact fun r _ => hP r

/-- C1: immediately after the Cleaner's filter step, no remaining row has any
cell equal to the sentinel `-200`; the filter removes exactly those imputed
rows in which at least one cell equals `-200`. -/
theorem cleaner_removes_exactly_sentinel_rows (t : List Row) (ti : List RowI)
    (h : impute t = some ti) :
    cleaner t = some (ti.filter rowKept) ∧
    (∀ r ∈ ti.filter rowKept, ∀ c ∈ r.cells, c ≠ Cell.num (-200)) ∧
    (∀ r ∈ ti, (r ∈ ti.filter rowKept ↔ ∀ c ∈ r.cells, c ≠ Cell.num (-200))) := by
  refine ⟨by simp [cleaner, h], ?_, ?_⟩
  · intro r hr
    exact (rowKept_iff r).1 (List.mem_filter.1 hr).2
  · intro r hr
    rw [List.mem_filter, rowKept_iff]
    exact ⟨fun hx => hx.2, fun hx => ⟨hr, hx⟩⟩

/-- Concrete table for the C1 witness: the second row carries a sentinel in
`PT08.S1(CO)` and is removed; the first row survives. -/
def t1w : List Row :=
  [⟨some 2, 3, 4, 5, 6, 7, "10/03/2004", "18.00.00", []⟩,
   ⟨some 1, -200, 4, 5, 6, 7, "10/03/2004", "19.00.00", []⟩]

/-- The imputed form of `t1w` (both `CO(GT)` values are present, so they
are unchanged). -/
def ti1w : List RowI :=
  [⟨2, 3, 4, 5, 6, 7, "10/03/2004", "18.00.00", []⟩,
   ⟨1, -200, 4, 5, 6, 7, "10/03/2004", "19.00.00", []⟩]

/-- Evaluation of the imputation step on `t1w`. -/
lemma impute_t1w : impute t1w = some ti1w := by
  norm_num [impute, presentCO, t1w, ti1w, coMean, imputeRow, List.filterMap_cons]
  intro h
  exact absurd h (by simp)

/-- Witness for C1 at the concrete table `t1w`. -/
theorem cleaner_removes_exactly_sentinel_rows_witness :
    impute t1w = some ti1w ∧
    (cleaner t1w = some (ti1w.filter rowKept) ∧
      (∀ r ∈ ti1w.filter rowKept, ∀ c ∈ r.cells, c ≠ Cell.num (-200)) ∧
      (∀ r ∈ ti1w, (r ∈ ti1w.filter rowKept ↔ ∀ c ∈ r.cells, c ≠ Cell.num (-200)))) :=
  ⟨impute_t1w, cleaner_removes_exactly_sentinel_rows t1w ti1w impute_t1w⟩

/-- C2: when `CO(GT)` has at least one present value, imputation succeeds and
replaces every missing `CO(GT)` entry with the mean of the originally-present
values (`coMean` is computed from the table before substitution); present
entries are unchanged, and the Cleaner output is the filtered imputed table,
in which `CO(GT)` is total (type `ℚ`, no missing entries). -/
theorem impute_fills_missing_with_mean (t : List Row) (h : presentCO t ≠ []) :
    ∃ ti, impute t = some ti ∧ cleaner t = some (ti.filter rowKept) ∧
      List.Forall₂ (fun r ri =>
        ri.co = r.co.getD (coMean t) ∧ (r.co = none → ri.co = coMean t)) t ti := by
  refine ⟨t.map (imputeRow (coMean t)), by simp [impute, h], ?_, ?_⟩
  · simp [cleaner, impute, h]
  · exact impute_forall₂ (by simp [impute, h]) fun r => by
      cases hc : r.co <;> simp [imputeRow, hc]

/-- Concrete table for the C2 witness: the first row's `CO(GT)` is missing;
the present values are 2 and 4, whose mean 3 is substituted. -/
def t2w : List Row :=
  [⟨none, 1, 1, 1, 1, 1, "10/03/2004", "18.00.00", []⟩,
   ⟨some 2, 1, 1, 1, 1, 1, "10/03/2004", "19.00.00", []⟩,
   ⟨some 4, 1, 1, 1, 1, 1, "10/03/2004", "20.00.00", []⟩]

/-- The `CO(GT)` column of `t2w` has present values. -/
lemma presentCO_t2w : presentCO t2w ≠ [] := by
  simp [presentCO, t2w, List.filterMap_cons]

/-- Witness for C2 at the concrete table `t2w`. -/
theorem impute_fills_missing_with_mean_witness :
    presentCO t2w ≠ [] ∧
    ∃ ti, impute t2w = some ti ∧ cleaner t2w = some (ti.filter rowKept) ∧
      List.Forall₂ (fun r ri =>
        ri.co = r.co.getD (coMean t2w) ∧ (r.co = none → ri.co = coMean t2w)) t2w ti :=
  ⟨presentCO_t2w, impute_fills_missing_with_mean t2w presentCO_t2w⟩

/-- Concrete counterexample table for C5: `CO(GT)` is missing in the first
row and holds a present sentinel `-200` in the second, so the imputation
mean is `-200` itself. -/
def t5c : List Row :=
  [⟨none, 1, 1, 1, 1, 1, "10/03/2004", "18.00.00", []⟩,
   ⟨some (-200), 1, 1, 1, 1, 1, "10/03/2004", "19.00.00", []⟩]

/-- The imputed form of `t5c`: every row holds the sentinel in `CO(GT)`. -/
def ti5c : List RowI :=
  [⟨-200, 1, 1, 1, 1, 1, "10/03/2004", "18.00.00", []⟩,
   ⟨-200, 1, 1, 1, 1, 1, "10/03/2004", "19.00.00", []⟩]

/-- C5 counterexample: the value substituted by the imputation step CAN equal
the sentinel `-200` (the `SimpleImputer` mean is taken over present values,
which include present sentinels), and the imputed entry then causes the
filter to remove its row: on `t5c` the originally-missing row 0 receives
`-200` and the Cleaner removes every row. -/
theorem imputed_value_can_equal_sentinel :
    coMean t5c = -200 ∧
    impute t5c = some ti5c ∧
    (t5c.get ⟨0, by norm_num [t5c]⟩).co = none ∧
    cleaner t5c = some [] := by
  refine ⟨?_, ?_, rfl, ?_⟩
  · norm_num [coMean, presentCO, t5c, List.filterMap_cons]
  · norm_num [impute, presentCO, t5c, ti5c, coMean, imputeRow, List.filterMap_cons]
  · norm_num [cleaner, impute, presentCO, t5c, coMean, imputeRow,
      List.filterMap_cons, List.filter, rowKept, RowI.cells, cellNeSentinel,
      List.all]

/-- C5 amended: the substituted value is exactly `coMean t`, so whenever that
pre-substitution mean differs from `-200`, no imputed `CO(GT)` entry equals
the sentinel, and an imputed entry alone cannot cause its row's removal. -/
theorem imputed_value_ne_sentinel_of_mean_ne (t : List Row) (ti : List RowI)
    (h : impute t = some ti) (hm : coMean t ≠ -200) :
    List.Forall₂ (fun r ri => r.co = none → ri.co ≠ -200) t ti :=
  impute_forall₂ h fun r => by
    cases hc : r.co <;> simp [imputeRow, hc, hm]

/-- The imputed form of `t2w`: the missing `CO(GT)` entry receives the
mean 3 of the present values 2 and 4. -/
def ti2w : List RowI :=
  [⟨3, 1, 1, 1, 1, 1, "10/03/2004", "18.00.00", []⟩,
   ⟨2, 1, 1, 1, 1, 1, "10/03/2004", "19.00.00", []⟩,
   ⟨4, 1, 1, 1, 1, 1, "10/03/2004", "20.00.00", []⟩]

/-- Evaluation of the imputation step on `t2w`. -/
lemma impute_t2w : impute t2w = some ti2w := by
  norm_num [impute, presentCO, t2w, ti2w, coMean, imputeRow, List.filterMap_cons]
  intro h
  exact absurd h (by simp)

/-- The imputation mean of `t2w` is 3, not the sentinel. -/
lemma coMean_t2w_ne : coMean t2w ≠ -200 := by
  norm_num [coMean, presentCO, t2w, List.filterMap_cons]

/-- Witness for the amended C5 at the concrete table `t2w` (mean 3). -/
theorem imputed_value_ne_sentinel_of_mean_ne_witness :
    impute t2w = some ti2w ∧ coMean t2w ≠ -200 ∧
    List.Forall₂ (fun r ri => r.co = none → ri.co ≠ -200) t2w ti2w :=
  ⟨impute_t2w, coMean_t2w_ne,
    imputed_value_ne_sentinel_of_mean_ne t2w ti2w impute_t2w coMean_t2w_ne⟩

/-- C10: the sentinel test is always true on string-valued cells (`Date`,
`Time`), so string columns never cause a row's removal; a row is removed
(fails `rowKept`) iff one of its numeric cells equals `-200`. -/
theorem rowKept_ignores_string_columns (r : RowI) :
    (∀ s, cellNeSentinel (Cell.str s) = true) ∧
    (rowKept r = false ↔
      (r.co = -200 ∨ r.pt08 = -200 ∨ r.c6h6 = -200 ∨ r.t = -200 ∨
        r.rh = -200 ∨ r.ah = -200 ∨ Cell.num (-200) ∈ r.others)) := by
  refine ⟨fun s => rfl, ?_⟩
  rw [Bool.eq_false_iff, Ne, rowKept_iff]
  push_neg
  constructor
  · rintro ⟨c, hc, rfl⟩
    simp only [RowI.cells, List.cons_append, List.nil_append,
      List.mem_cons] at hc
    rcases hc with h | h | h | h | h | h | h | h | h <;>
      simp_all [eq_comm]
  · intro hx
    refine ⟨Cell.num (-200), ?_, rfl⟩
    simp only [RowI.cells, List.cons_append, List.nil_append, List.mem_cons]
    rcases hx with h | h | h | h | h | h | h <;> simp [h]

/-! ## Scaler

`StandardScaler` and `MinMaxScaler` of sklearn, `fit_transform` on one
column over the post-filter rows.  `StandardScaler` centers by the column
mean and divides by the square root of the population variance
(`ddof = 0`); `MinMaxScaler` maps `x` to `(x - min) / (max - min)` for the
default feature range `(0, 1)`.  Both pass the scale through sklearn's
`_handle_zeros_in_scale`, which replaces a zero scale by 1 instead of
dividing by zero. -/

/-- Arithmetic mean of a rational column. -/
def qmean (xs : List ℚ) : ℚ := xs.sum / xs.length

/-- Population variance (`ddof = 0`), the `var_` statistic of
`StandardScaler.fit`. -/
def qpvar (xs : List ℚ) : ℚ :=
  (xs.map (fun x => (x - qmean xs) ^ 2)).sum / xs.length

/-- Model of sklearn's `_handle_zeros_in_scale`: a zero scale is replaced
by 1, so constant features are not divided by zero. -/
noncomputable def handleZeros (s : ℝ) : ℝ := if s = 0 then 1 else s

/-- The per-column scale of `StandardScaler`: the square root of the
population variance. -/
noncomputable def std (xs : List ℚ) : ℝ := Real.sqrt (qpvar xs)

/-- Model of `StandardScaler().fit_transform` on one column. -/
noncomputable def standardizeCol (xs : List ℚ) : List ℝ :=
  xs.map (fun (x : ℚ) => ((x : ℝ) - (qmean xs : ℝ)) / handleZeros (std xs))

/-- The `data_min_` statistic of `MinMaxScaler` (with junk value 0 on an empty column,
where sklearn would refuse to fit). -/
def colMin (xs : List ℚ) : ℚ := xs.min?.getD 0

/-- The `data_max_` statistic of `MinMaxScaler` (junk value 0 on an empty column). -/
def colMax (xs : List ℚ) : ℚ := xs.max?.getD 0

/-- Model of `MinMaxScaler().fit_transform` on one column, default feature range
`(0, 1)`. -/
noncomputable def minmaxCol (xs : List ℚ) : List ℝ :=
  xs.map (fun (x : ℚ) =>
    ((x : ℝ) - (colMin xs : ℝ)) / handleZeros ((colMax xs : ℝ) - (colMin xs : ℝ)))

/-- Mean of a real column, for stating the Scaler's post-conditions. -/
noncomputable def rmean (l : List ℝ) : ℝ := l.sum / l.length

/-- Population variance of a real column. -/
noncomputable def rpvar (l : List ℝ) : ℝ :=
  (l.map (fun y => (y - rmean l) ^ 2)).sum / l.length

/-- Sum of a centered, rescaled column. -/
lemma sum_map_sub_div (xs : List ℚ) (a s : ℝ) :
    (xs.map (fun (x : ℚ) => ((x : ℝ) - a) / s)).sum
      = (((xs.sum : ℚ) : ℝ) - xs.length * a) / s := by
  induction xs with
  | nil => simp
  | cons x t ih =>
      simp only [List.map_cons, List.sum_cons, ih, List.length_cons,
        List.sum_cons]
      push_cast
      ring

/-- Sum of squares of a rescaled column. -/
lemma sum_map_sq_div (xs : List ℚ) (a s : ℝ) :
    (xs.map (fun (x : ℚ) => (((x : ℝ) - a) / s) ^ 2)).sum
      = (xs.map (fun (x : ℚ) => ((x : ℝ) - a) ^ 2)).sum / s ^ 2 := by
  induction xs with
  | nil => simp
  | cons x t ih =>
      simp only [List.map_cons, List.sum_cons, ih]
      ring

/-- Casting the rational sum of squared deviations to the reals. -/
lemma cast_sum_map_sq (xs : List ℚ) (a : ℚ) :
    (((xs.map (fun x => (x - a) ^ 2)).sum : ℚ) : ℝ)
      = (xs.map (fun (x : ℚ) => ((x : ℝ) - (a : ℝ)) ^ 2)).sum := by
  induction xs with
  | nil => simp
  | cons x t ih =>
      simp only [List.map_cons, List.sum_cons]
      push_cast [ih]
      ring

/-- The population variance is nonnegative. -/
lemma qpvar_nonneg (xs : List ℚ) : 0 ≤ qpvar xs := by
  unfold qpvar
  apply div_nonneg
  · apply List.sum_nonneg
    intro y hy
    obtain ⟨x, -, rfl⟩ := List.mem_map.1 hy
    positivity
  · positivity

/-- Standardization of a column of nonzero variance has exact mean 0 and
exact population variance 1. -/
lemma standardize_mean_var (xs : List ℚ) (h : qpvar xs ≠ 0) :
    rmean (standardizeCol xs) = 0 ∧ rpvar (standardizeCol xs) = 1 := by
  have hne : xs ≠ [] := fun he => h (by simp [he, qpvar, qmean])
  have hn : (xs.length : ℝ) ≠ 0 := by
    simpa using fun h0 => hne (List.length_eq_zero.1 h0)
  have hnq : (xs.length : ℚ) ≠ 0 := by
    simpa using fun h0 => hne (List.length_eq_zero.1 h0)
  have hvR : ((qpvar xs : ℚ) : ℝ) ≠ 0 := by exact_mod_cast h
  have hvpos : (0 : ℝ) < ((qpvar xs : ℚ) : ℝ) :=
    lt_of_le_of_ne (by exact_mod_cast qpvar_nonneg xs) (Ne.symm hvR)
  have hspos : 0 < std xs := Real.sqrt_pos.2 hvpos
  have hH : handleZeros (std xs) = std xs := if_neg (ne_of_gt hspos)
  have hsq : std xs ^ 2 = ((qpvar xs : ℚ) : ℝ) :=
    Real.sq_sqrt (le_of_lt hvpos)
  have hqm : ((qmean xs : ℚ) : ℝ) = ((xs.sum : ℚ) : ℝ) / (xs.length : ℝ) := by
    rw [qmean]
    push_cast
    ring
  have hzero : ((xs.sum : ℚ) : ℝ) - (xs.length : ℝ) * (((xs.sum : ℚ) : ℝ) / (xs.length : ℝ)) = 0 := by
    field_simp
  have hsum : (standardizeCol xs).sum = 0 := by
    rw [standardizeCol, sum_map_sub_div, hqm, hzero, zero_div]
  have hmean : rmean (standardizeCol xs) = 0 := by
    simp [rmean, hsum]
  refine ⟨hmean, ?_⟩
  have hS : (xs.map (fun (x : ℚ) => ((x : ℝ) - ((qmean xs : ℚ) : ℝ)) ^ 2)).sum
      = ((qpvar xs : ℚ) : ℝ) * (xs.length : ℝ) := by
    rw [← cast_sum_map_sq]
    have hq : ((xs.map (fun x => (x - qmean xs) ^ 2)).sum : ℚ)
        = qpvar xs * (xs.length : ℚ) := by
      rw [qpvar, div_mul_cancel₀ _ hnq]
    rw [hq]
    push_cast
    ring
  rw [rpvar, hmean]
  simp only [sub_zero, List.length_map]
  rw [standardizeCol, List.map_map, Function.comp_def, hH, sum_map_sq_div,
    hS, hsq, List.length_map]
  field_simp

/-- The minimum of a nonempty rational column is attained and bounds it. -/
lemma colMin_spec (ys : List ℚ) (h : ys ≠ []) :
    colMin ys ∈ ys ∧ ∀ y ∈ ys, colMin ys ≤ y := by
  obtain ⟨a, ha⟩ : ∃ a, ys.min? = some a := by
    cases hm : ys.min? with
    | none => exact absurd (List.min?_eq_none_iff.1 hm) h
    | some a => exact ⟨a, rfl⟩
  simp only [colMin, ha, Option.getD_some]
  exact ⟨List.min?_mem (fun a b => min_choice a b) ha,
    fun y hy => (List.le_min?_iff (fun _ _ _ => le_min_iff) ha).1 (le_refl a) y hy⟩

/-- The maximum of a nonempty rational column is attained and bounds it. -/
lemma colMax_spec (ys : List ℚ) (h : ys ≠ []) :
    colMax ys ∈ ys ∧ ∀ y ∈ ys, y ≤ colMax ys := by
  obtain ⟨a, ha⟩ : ∃ a, ys.max? = some a := by
    cases hm : ys.max? with
    | none => exact absurd (List.max?_eq_none_iff.1 hm) h
    | some a => exact ⟨a, rfl⟩
  simp only [colMax, ha, Option.getD_some]
  exact ⟨List.max?_mem (fun a b => max_choice a b) ha,
    fun y hy => (List.max?_le_iff (fun _ _ _ => max_le_iff) ha).1 (le_refl a) y hy⟩

/-- Min-max scaling of a column of nonzero range attains minimum exactly 0
and maximum exactly 1. -/
lemma minmax_bounds (ys : List ℚ) (h : colMin ys ≠ colMax ys) :
    (minmaxCol ys).min? = some 0 ∧ (minmaxCol ys).max? = some 1 := by
  have hne : ys ≠ [] := by
    rintro rfl
    exact h rfl
  obtain ⟨hmem, hle⟩ := colMin_spec ys hne
  obtain ⟨hmemM, hleM⟩ := colMax_spec ys hne
  have hmm : colMin ys < colMax ys :=
    lt_of_le_of_ne (hle _ hmemM) h
  have hd : (0 : ℝ) < (colMax ys : ℝ) - (colMin ys : ℝ) := by
    rw [sub_pos]
    exact_mod_cast hmm
  have hH : handleZeros ((colMax ys : ℝ) - (colMin ys : ℝ))
      = (colMax ys : ℝ) - (colMin ys : ℝ) := if_neg (ne_of_gt hd)
  have h0 : (0 : ℝ) ∈ minmaxCol ys := by
    refine List.mem_map.2 ⟨colMin ys, hmem, ?_⟩
    rw [hH, sub_self, zero_div]
  have h1 : (1 : ℝ) ∈ minmaxCol ys := by
    refine List.mem_map.2 ⟨colMax ys, hmemM, ?_⟩
    rw [hH, div_self (ne_of_gt hd)]
  have hb : ∀ z ∈ minmaxCol ys, 0 ≤ z ∧ z ≤ 1 := by
    intro z hz
    obtain ⟨x, hx, rfl⟩ := List.mem_map.1 hz
    rw [hH]
    constructor
    · apply div_nonneg _ (le_of_lt hd)
      rw [sub_nonneg]
      exact_mod_cast hle x hx
    · rw [div_le_one hd]
      have hxM : (x : ℝ) ≤ (colMax ys : ℝ) := by exact_mod_cast hleM x hx
      linarith
  constructor
  · exact (@List.min?_eq_some_iff ℝ 0 _ _ ⟨fun p q => le_antisymm p q⟩
      (fun a => le_refl a) (fun a b => min_choice a b)
      (fun _ _ _ => le_min_iff) (minmaxCol ys)).2
      ⟨h0, fun b hbm => (hb b hbm).1⟩
  · exact (@List.max?_eq_some_iff ℝ 1 _ _ ⟨fun p q => le_antisymm p q⟩
      (fun a => le_refl a) (fun a b => max_choice a b)
      (fun _ _ _ => max_le_iff) (minmaxCol ys)).2
      ⟨h1, fun b hbm => (hb b hbm).2⟩

/-- C3: after the Scaler, a standardized column of nonzero variance has
exact mean 0, population variance 1 and standard deviation 1, and a
min-max-scaled column of nonzero range has minimum exactly 0 and maximum
exactly 1 (the exact-arithmetic rendering of the spec's floating-point
tolerance). -/
theorem scaler_postconditions (xs ys : List ℚ)
    (hv : qpvar xs ≠ 0) (hr : colMin ys ≠ colMax ys) :
    rmean (standardizeCol xs) = 0 ∧ rpvar (standardizeCol xs) = 1 ∧
    Real.sqrt (rpvar (standardizeCol xs)) = 1 ∧
    (minmaxCol ys).min? = some 0 ∧ (minmaxCol ys).max? = some 1 := by
  obtain ⟨h1, h2⟩ := standardize_mean_var xs hv
  obtain ⟨h3, h4⟩ := minmax_bounds ys hr
  exact ⟨h1, h2, by rw [h2, Real.sqrt_one], h3, h4⟩

/-- Variance of the concrete column `[1, 2, 3]`. -/
lemma qpvar_w : qpvar [(1 : ℚ), 2, 3] ≠ 0 := by
  norm_num [qpvar, qmean]

/-- Range of the concrete column `[1, 3]`. -/
lemma range_w : colMin [(1 : ℚ), 3] ≠ colMax [(1 : ℚ), 3] := by
  norm_num [colMin, colMax, List.min?_cons, List.max?_cons]

/-- Witness for C3 at the concrete columns `[1, 2, 3]` and `[1, 3]`. -/
theorem scaler_postconditions_witness :
    qpvar [(1 : ℚ), 2, 3] ≠ 0 ∧
    colMin [(1 : ℚ), 3] ≠ colMax [(1 : ℚ), 3] ∧
    (rmean (standardizeCol [(1 : ℚ), 2, 3]) = 0 ∧
      rpvar (standardizeCol [(1 : ℚ), 2, 3]) = 1 ∧
      Real.sqrt (rpvar (standardizeCol [(1 : ℚ), 2, 3])) = 1 ∧
      (minmaxCol [(1 : ℚ), 3]).min? = some 0 ∧
      (minmaxCol [(1 : ℚ), 3]).max? = some 1) :=
  ⟨qpvar_w, range_w, scaler_postconditions [1, 2, 3] [1, 3] qpvar_w range_w⟩

/-- C6 counterexample: on degenerate input the Scaler does NOT fail with a
DivideByZero condition: `StandardScaler` on the zero-variance column
`[5, 5, 5]` and `MinMaxScaler` on the zero-range column `[7, 7, 7]` both
produce the table `[0, 0, 0]` (sklearn replaces the zero scale by 1). -/
theorem scaler_no_divide_by_zero_failure :
    qpvar [(5 : ℚ), 5, 5] = 0 ∧ standardizeCol [(5 : ℚ), 5, 5] = [0, 0, 0] ∧
    colMin [(7 : ℚ), 7, 7] = colMax [(7 : ℚ), 7, 7] ∧
    minmaxCol [(7 : ℚ), 7, 7] = [0, 0, 0] := by
  have hq : qpvar [(5 : ℚ), 5, 5] = 0 := by norm_num [qpvar, qmean]
  have hm : qmean [(5 : ℚ), 5, 5] = 5 := by norm_num [qmean]
  have hmin : colMin [(7 : ℚ), 7, 7] = 7 := by
    norm_num [colMin, List.min?_cons]
  have hmax : colMax [(7 : ℚ), 7, 7] = 7 := by
    norm_num [colMax, List.max?_cons]
  refine ⟨hq, ?_, by rw [hmin, hmax], ?_⟩
  · simp [standardizeCol, std, hq, hm, handleZeros]
  · simp [minmaxCol, hmin, hmax, handleZeros]

/-- Every squared deviation vanishing forces every entry to the center. -/
lemma eq_of_sum_sq_eq_zero (a : ℚ) :
    ∀ l : List ℚ, (l.map (fun x => (x - a) ^ 2)).sum = 0 → ∀ x ∈ l, x = a := by
  intro l
  induction l with
  | nil => simp
  | cons y t ih =>
      simp only [List.map_cons, List.sum_cons]
      intro h x hx
      have h2 : (0 : ℚ) ≤ (t.map (fun x => (x - a) ^ 2)).sum := by
        apply List.sum_nonneg
        intro z hz
        obtain ⟨w, -, rfl⟩ := List.mem_map.1 hz
        positivity
      have h1 : (0 : ℚ) ≤ (y - a) ^ 2 := sq_nonneg _
      have hy : (y - a) ^ 2 = 0 := by linarith
      have ht : (t.map (fun x => (x - a) ^ 2)).sum = 0 := by linarith
      rcases List.mem_cons.1 hx with rfl | hx
      · have := (pow_eq_zero_iff (two_ne_zero)).1 hy
        linarith [sub_eq_zero.1 this]
      · exact ih ht x hx

/-- C6 amended: a zero-variance standardized column or a zero-range
min-max column does not make the Scaler fail; sklearn substitutes 1 for
the zero scale, and every entry of the degenerate column is mapped to 0. -/
theorem scaler_degenerate_yields_zero (xs ys : List ℚ)
    (hv : qpvar xs = 0) (hr : colMin ys = colMax ys) :
    (∀ z ∈ standardizeCol xs, z = 0) ∧ (∀ z ∈ minmaxCol ys, z = 0) := by
  constructor
  · intro z hz
    obtain ⟨x, hx, rfl⟩ := List.mem_map.1 hz
    have hx_eq : x = qmean xs := by
      rcases List.eq_nil_or_concat xs with rfl | -
      · simp at hx
      · have hn : xs ≠ [] := List.ne_nil_of_mem hx
        have hnq : (xs.length : ℚ) ≠ 0 := by
          simpa using fun h0 => hn (List.length_eq_zero.1 h0)
        have hS : (xs.map (fun x => (x - qmean xs) ^ 2)).sum = 0 := by
          have := hv
          rw [qpvar, div_eq_zero_iff] at this
          rcases this with hS | hlen
          · exact hS
          · exact absurd hlen hnq
        exact eq_of_sum_sq_eq_zero (qmean xs) xs hS x hx
    have hstd : std xs = 0 := by
      rw [std, hv]
      simp [Real.sqrt_zero]
    rw [hstd]
    simp [handleZeros, hx_eq]
  · intro z hz
    obtain ⟨x, hx, rfl⟩ := List.mem_map.1 hz
    have hn : ys ≠ [] := List.ne_nil_of_mem hx
    obtain ⟨-, hle⟩ := colMin_spec ys hn
    obtain ⟨-, hleM⟩ := colMax_spec ys hn
    have hx_eq : x = colMin ys :=
      le_antisymm (hr ▸ hleM x hx) (hle x hx)
    have hd : (colMax ys : ℝ) - (colMin ys : ℝ) = 0 := by
      rw [hr]
      ring
    rw [hd]
    simp [handleZeros, hx_eq]

/-- Witness for the amended C6 at the concrete degenerate columns
`[5, 5, 5]` and `[7, 7, 7]`. -/
theorem scaler_degenerate_yields_zero_witness :
    qpvar [(5 : ℚ), 5, 5] = 0 ∧
    colMin [(7 : ℚ), 7, 7] = colMax [(7 : ℚ), 7, 7] ∧
    ((∀ z ∈ standardizeCol [(5 : ℚ), 5, 5], z = 0) ∧
      (∀ z ∈ minmaxCol [(7 : ℚ), 7, 7], z = 0)) := by
  have hq : qpvar [(5 : ℚ), 5, 5] = 0 := by norm_num [qpvar, qmean]
  have hmin : colMin [(7 : ℚ), 7, 7] = 7 := by
    norm_num [colMin, List.min?_cons]
  have hmax : colMax [(7 : ℚ), 7, 7] = 7 := by
    norm_num [colMax, List.max?_cons]
  exact ⟨hq, by rw [hmin, hmax],
    scaler_degenerate_yields_zero [5, 5, 5] [7, 7, 7] hq (by rw [hmin, hmax])⟩

/-! ## Feature Deriver

Models `data['DateTime'] = pd.to_datetime(data['Date'] + ' ' + data['Time'])`
followed by `data['Hour'] = data['DateTime'].dt.hour` and
`data['Day'] = data['DateTime'].dt.day`.  The dataset's concatenated
strings have the shape `MM/DD/YYYY HH.MM.SS` (pandas' default month-first
reading of the slash date); `pd.to_datetime` with its default
`errors='raise'` raises on the first value that does not parse as a valid
calendar timestamp, so the whole assignment fails and no column is
produced. -/

/-- A parsed timestamp (the value of the `DateTime` column). -/
structure Timestamp where
  year : Nat
  month : Nat
  day : Nat
  hour : Nat
  minute : Nat
  second : Nat
deriving DecidableEq, Repr

/-- Split a character list on a separator character. -/
def splitOnChar (c : Char) : List Char → List (List Char)
  | [] => [[]]
  | x :: xs =>
    let r := splitOnChar c xs
    if x = c then [] :: r
    else match r with
      | [] => [[x]]
      | y :: ys => (x :: y) :: ys

/-- Numeric value of a decimal digit character. -/
def digitVal (c : Char) : Option Nat :=
  if '0' ≤ c ∧ c ≤ '9' then some (c.toNat - '0'.toNat) else none

/-- Accumulating decimal parser; `none` on the empty string or any
non-digit character. -/
def parseNatAux : List Char → Option Nat → Option Nat
  | [], acc => acc
  | c :: cs, acc =>
    match digitVal c, acc with
    | some d, some n => parseNatAux cs (some (10 * n + d))
    | some d, none => parseNatAux cs (some d)
    | none, _ => none

/-- Parse a nonempty all-digit character list as a decimal number. -/
def parseNatL (cs : List Char) : Option Nat := parseNatAux cs none

/-- Gregorian leap-year rule. -/
def isLeap (y : Nat) : Bool :=
  (y % 4 == 0 && y % 100 != 0) || y % 400 == 0

/-- Number of days of a month, as the calendar validation of
`pd.to_datetime` uses it. -/
def daysInMonth (y m : Nat) : Nat :=
  if m = 2 then (if isLeap y then 29 else 28)
  else if m = 4 ∨ m = 6 ∨ m = 9 ∨ m = 11 then 30
  else 31

/-- Calendar validation: a timestamp is produced only from in-range
components, otherwise the parse raises (`none`). -/
def mkTimestamp (y m dd h mi sec : Nat) : Option Timestamp :=
  if 1 ≤ m ∧ m ≤ 12 ∧ 1 ≤ dd ∧ dd ≤ daysInMonth y m ∧
      h ≤ 23 ∧ mi ≤ 59 ∧ sec ≤ 59
  then some ⟨y, m, dd, h, mi, sec⟩ else none

/-- Modelled `pd.to_datetime` on one concatenated `Date + ' ' + Time`
string of the dataset's format `MM/DD/YYYY HH.MM.SS`. -/
def parseTimestamp (s : String) : Option Timestamp :=
  match splitOnChar ' ' s.data with
  | [d, t] =>
    match splitOnChar '/' d, splitOnChar '.' t with
    | [ms, ds, ys], [hs, mins, secs] =>
      match parseNatL ms, parseNatL ds, parseNatL ys,
          parseNatL hs, parseNatL mins, parseNatL secs with
      | some m, some dd, some y, some h, some mi, some sec =>
          mkTimestamp y m dd h mi sec
      | _, _, _, _, _, _ => none
    | _, _ => none
  | _ => none

/-- A row after feature engineering: the original columns plus the derived
`DateTime`, `Hour` and `Day` columns. -/
structure DRow where
  row : RowI
  dt : Timestamp
  hour : Nat
  day : Nat
deriving DecidableEq, Repr

/-- Feature derivation on one row: `DateTime` from `Date + ' ' + Time`,
then `Hour` and `Day` as its components. -/
def deriveRow (r : RowI) : Option DRow :=
  (parseTimestamp (r.date ++ " " ++ r.time)).map (fun ts => ⟨r, ts, ts.hour, ts.day⟩)

/-- The Feature Deriver stage: all rows are derived, or—as
`pd.to_datetime` raises—the stage as a whole produces nothing. -/
def deriver (t : List RowI) : Option (List DRow) := t.mapM deriveRow

/-- Every month has at most 31 days. -/
lemma daysInMonth_le (y m : Nat) : daysInMonth y m ≤ 31 := by
  unfold daysInMonth
  repeat' split <;> norm_num

/-- A validated timestamp has an in-range hour and day. -/
lemma mkTimestamp_valid {y m dd h mi sec : Nat} {ts : Timestamp}
    (hp : mkTimestamp y m dd h mi sec = some ts) :
    ts.hour ≤ 23 ∧ 1 ≤ ts.day ∧ ts.day ≤ 31 := by
  unfold mkTimestamp at hp
  split at hp
  · rename_i hc
    obtain ⟨-, -, hd1, hd2, hh, -, -⟩ := hc
    injection hp with hq
    subst hq
    exact ⟨hh, hd1, le_trans hd2 (daysInMonth_le y m)⟩
  · exact absurd hp (by simp)

/-- Any timestamp produced by the parse has an in-range hour and day. -/
lemma parseTimestamp_valid {s : String} {ts : Timestamp}
    (h : parseTimestamp s = some ts) :
    ts.hour ≤ 23 ∧ 1 ≤ ts.day ∧ ts.day ≤ 31 := by
  unfold parseTimestamp at h
  repeat split at h
  any_goals cases h
  exact mkTimestamp_valid h

/-- The Feature Deriver succeeds exactly when every row derives. -/
lemma deriver_eq_some_iff {t : List RowI} {l : List DRow} :
    deriver t = some l ↔ List.Forall₂ (fun r dr => deriveRow r = some dr) t l := by
  induction t generalizing l with
  | nil =>
      simp only [deriver, List.mapM_nil]
      constructor
      · rintro h
        injection h with h
        subst h
        exact List.Forall₂.nil
      · rintro h
        cases h
        rfl
  | cons r rs ih =>
      constructor
      · intro h
        rw [deriver, List.mapM_cons] at h
        cases hd : deriveRow r with
        | none => rw [hd] at h; simp at h
        | some dr =>
            rw [hd] at h
            cases hrs : rs.mapM deriveRow with
            | none => rw [hrs] at h; simp at h
            | some ds =>
                rw [hrs] at h
                simp only [bind, Option.bind, pure] at h
                injection h with h
                subst h
                exact List.Forall₂.cons hd (ih.1 hrs)
      · intro h
        cases h with
        | cons hd htl =>
            rw [deriver, List.mapM_cons, hd,
              show List.mapM deriveRow _ = _ from ih.2 htl]
            rfl

/-- A pointwise relation gives, for every right member, a left partner. -/
lemma forall₂_mem_right {α β : Type} {P : α → β → Prop} :
    ∀ {l1 : List α} {l2 : List β}, List.Forall₂ P l1 l2 →
      ∀ b ∈ l2, ∃ a ∈ l1, P a b := by
  intro l1 l2 h
  induction h with
  | nil => simp
  | cons hab htl ih =>
      intro b hb
      rcases List.mem_cons.1 hb with rfl | hb
      · exact ⟨_, List.mem_cons_self _ _, hab⟩
      · obtain ⟨a, ha, hp⟩ := ih b hb
        exact ⟨a, List.mem_cons_of_mem _ ha, hp⟩

/-- A pointwise relation gives, for every left member, a right partner. -/
lemma forall₂_mem_left {α β : Type} {P : α → β → Prop} :
    ∀ {l1 : List α} {l2 : List β}, List.Forall₂ P l1 l2 →
      ∀ a ∈ l1, ∃ b ∈ l2, P a b := by
  intro l1 l2 h
  induction h with
  | nil => simp
  | cons hab htl ih =>
      intro a ha
      rcases List.mem_cons.1 ha with rfl | ha
      · exact ⟨_, List.mem_cons_self _ _, hab⟩
      · obtain ⟨b, hb, hp⟩ := ih a ha
        exact ⟨b, List.mem_cons_of_mem _ hb, hp⟩

/-- C4: in the derived table, every row's `DateTime` is the parse of
`Date + ' ' + Time`, `Hour` and `Day` are its hour and day-of-month
components, and they lie in `[0, 23]` and `[1, 31]` respectively. -/
theorem derived_features_consistent (t : List RowI) (l : List DRow)
    (h : deriver t = some l) :
    ∀ dr ∈ l, parseTimestamp (dr.row.date ++ " " ++ dr.row.time) = some dr.dt ∧
      dr.hour = dr.dt.hour ∧ dr.day = dr.dt.day ∧
      dr.hour ≤ 23 ∧ 1 ≤ dr.day ∧ dr.day ≤ 31 := by
  intro dr hdr
  obtain ⟨r, -, hp⟩ := forall₂_mem_right (deriver_eq_some_iff.1 h) dr hdr
  rw [deriveRow] at hp
  rcases hps : parseTimestamp (r.date ++ " " ++ r.time) with - | ts
  · rw [hps] at hp
    cases hp
  · rw [hps] at hp
    injection hp with hp
    subst hp
    obtain ⟨hh, hd1, hd2⟩ := parseTimestamp_valid hps
    exact ⟨hps, rfl, rfl, hh, hd1, hd2⟩

/-- Concrete row for the C4 witness. -/
def r4w : RowI := ⟨1, 1, 1, 1, 1, 1, "10/03/2004", "18.00.00", []⟩

/-- The derived form of `[r4w]`. -/
def l4w : List DRow := [⟨r4w, ⟨2004, 10, 3, 18, 0, 0⟩, 18, 3⟩]

/-- Evaluation of the Feature Deriver on `[r4w]`. -/
lemma deriver_r4w : deriver [r4w] = some l4w := by decide

/-- Witness for C4 at the concrete one-row table `[r4w]`. -/
theorem derived_features_consistent_witness :
    deriver [r4w] = some l4w ∧
    ∀ dr ∈ l4w, parseTimestamp (dr.row.date ++ " " ++ dr.row.time) = some dr.dt ∧
      dr.hour = dr.dt.hour ∧ dr.day = dr.dt.day ∧
      dr.hour ≤ 23 ∧ 1 ≤ dr.day ∧ dr.day ≤ 31 :=
  ⟨deriver_r4w, derived_features_consistent [r4w] l4w deriver_r4w⟩

/-- C7: if any row's concatenated `Date + ' ' + Time` fails to parse, the
Feature Deriver fails as a whole: no derived table is produced and no row
is skipped individually. -/
theorem deriver_fails_whole (t : List RowI) (r : RowI) (hr : r ∈ t)
    (hp : parseTimestamp (r.date ++ " " ++ r.time) = none) :
    deriver t = none := by
  cases hd : deriver t with
  | none => rfl
  | some l =>
      exfalso
      obtain ⟨dr, -, hx⟩ := forall₂_mem_left (deriver_eq_some_iff.1 hd) r hr
      rw [deriveRow, hp] at hx
      cases hx

/-- Concrete row with an unparseable date for the C7 witness. -/
def r7w : RowI := ⟨1, 1, 1, 1, 1, 1, "not-a-date", "18.00.00", []⟩

/-- Witness for C7 at the concrete table `[r4w, r7w]`: one bad row aborts
the whole stage. -/
theorem deriver_fails_whole_witness :
    r7w ∈ [r4w, r7w] ∧
    parseTimestamp (r7w.date ++ " " ++ r7w.time) = none ∧
    deriver [r4w, r7w] = none :=
  ⟨by simp, by decide,
    deriver_fails_whole [r4w, r7w] r7w (by simp) (by decide)⟩

/-! ## Exporter round trip

Models `data.to_csv('AirQualityUCI_preprocessed.csv', index=False)` and the
reload of that file: the file is the header line followed by one line per
row (no index column), lines joined by a newline and cells joined by a
comma; reading splits lines and cells again.  Cell contents are the
formatted values — the claim's "modulo floating-point formatting" makes the
formatted strings the compared values, so the cell formatters are
parameters. -/

/-- Write a header and data rows to CSV text (comma separator, header
first, no index column). -/
def writeCsv (header : List (List Char)) (rows : List (List (List Char))) : List Char :=
  ['\n'].intercalate ((header :: rows).map (fun fields => [','].intercalate fields))

/-- Read CSV text back into its lines and cells. -/
def readCsv (file : List Char) : List (List (List Char)) :=
  (file.splitOn '\n').map (fun line => line.splitOn ',')

/-- A member of a singleton-separated intercalation is the separator or a
member of one of the parts. -/
lemma mem_intercalate_singleton {α : Type} {x c : α} :
    ∀ {ls : List (List α)}, c ∈ [x].intercalate ls → c = x ∨ ∃ l ∈ ls, c ∈ l := by
  intro ls
  induction ls with
  | nil => simp [List.intercalate]
  | cons l tl ih =>
      cases tl with
      | nil =>
          intro hc
          simp only [List.intercalate, List.intersperse_single, List.flatten] at hc
          exact Or.inr ⟨l, by simp, by simpa using hc⟩
      | cons l2 tl2 =>
          intro hc
          have hstep : [x].intercalate (l :: l2 :: tl2)
              = l ++ x :: [x].intercalate (l2 :: tl2) := by
            simp [List.intercalate, List.intersperse_cons_cons]
          rw [hstep] at hc
          rcases List.mem_append.1 hc with hc | hc
          · exact Or.inr ⟨l, by simp, hc⟩
          · rcases List.mem_cons.1 hc with rfl | hc
            · exact Or.inl rfl
            · rcases ih hc with rfl | ⟨l3, hl3, hcl⟩
              · exact Or.inl rfl
              · exact Or.inr ⟨l3, List.mem_cons_of_mem _ hl3, hcl⟩

/-- Reading back a written CSV grid reproduces it exactly, provided every
row has at least one cell and no cell contains a separator character. -/
lemma csv_roundtrip (header : List (List Char)) (rows : List (List (List Char)))
    (hne : ∀ fields ∈ header :: rows, fields ≠ [])
    (hsep : ∀ fields ∈ header :: rows, ∀ cell ∈ fields, ',' ∉ cell ∧ '\n' ∉ cell) :
    readCsv (writeCsv header rows) = header :: rows := by
  have hlines : (writeCsv header rows).splitOn '\n'
      = (header :: rows).map (fun fields => [','].intercalate fields) := by
    apply List.splitOn_intercalate _ '\n'
    · intro l hl
      obtain ⟨fields, hf, rfl⟩ := List.mem_map.1 hl
      intro hmem
      rcases mem_intercalate_singleton hmem with h | ⟨cell, hcell, hmemc⟩
      · exact absurd h (by decide)
      · exact (hsep fields hf cell hcell).2 hmemc
    · simp
  rw [readCsv, hlines, List.map_map]
  have hcells : ∀ fields ∈ header :: rows,
      (((fun line => line.splitOn ',') ∘ fun fields => [','].intercalate fields) fields)
        = id fields := by
    intro fields hf
    simp only [Function.comp_apply, id]
    exact List.splitOn_intercalate _ ','
      (fun cell hcell => (hsep fields hf cell hcell).1) (hne fields hf)
  rw [List.map_congr_left hcells, List.map_id]

/-- Render one derived row into CSV cells, in the output column order
(`Date`, `Time`, named numeric columns, pass-through columns, then the
derived `DateTime`, `Hour` and `Day`); the value formatters are
parameters. -/
def renderDRow (fs : String → List Char) (fq : ℚ → List Char)
    (fc : Cell → List Char) (ft : Timestamp → List Char)
    (fn : Nat → List Char) (dr : DRow) : List (List Char) :=
  [fs dr.row.date, fs dr.row.time, fq dr.row.co, fq dr.row.pt08,
    fq dr.row.c6h6, fq dr.row.t, fq dr.row.rh, fq dr.row.ah]
    ++ dr.row.others.map fc ++ [ft dr.dt, fn dr.hour, fn dr.day]

/-- A rendered row always has at least one cell. -/
lemma renderDRow_ne_nil (fs : String → List Char) (fq : ℚ → List Char)
    (fc : Cell → List Char) (ft : Timestamp → List Char)
    (fn : Nat → List Char) (dr : DRow) :
    renderDRow fs fq fc ft fn dr ≠ [] := by
  simp [renderDRow]

/-- C9: writing the final table to the output file (header included, index
excluded) and reloading it yields the same rows again — the same row count
and the same cell values (cell values being the formatted values, per the
claim's "modulo floating-point formatting") — provided no formatted cell
contains a separator character. -/
theorem export_reload_roundtrip (header : List (List Char)) (l : List DRow)
    (fs : String → List Char) (fq : ℚ → List Char) (fc : Cell → List Char)
    (ft : Timestamp → List Char) (fn : Nat → List Char)
    (hh : header ≠ [])
    (hsep : ∀ fields ∈ header :: l.map (renderDRow fs fq fc ft fn),
      ∀ cell ∈ fields, ',' ∉ cell ∧ '\n' ∉ cell) :
    readCsv (writeCsv header (l.map (renderDRow fs fq fc ft fn)))
      = header :: l.map (renderDRow fs fq fc ft fn) ∧
    (readCsv (writeCsv header (l.map (renderDRow fs fq fc ft fn)))).length
      = l.length + 1 := by
  have hne : ∀ fields ∈ header :: l.map (renderDRow fs fq fc ft fn), fields ≠ [] := by
    intro fields hf
    rcases List.mem_cons.1 hf with rfl | hf
    · exact hh
    · obtain ⟨dr, -, rfl⟩ := List.mem_map.1 hf
      exact renderDRow_ne_nil fs fq fc ft fn dr
  have hmain := csv_roundtrip _ _ hne hsep
  exact ⟨hmain, by rw [hmain]; simp⟩

/-- Witness formatters and header for C9: render strings by their
characters and every numeric or derived value by a one-letter tag. -/
def hdr9w : List (List Char) := [['h']]

/-- Witness for C9 at the concrete derived table `l4w`. -/
theorem export_reload_roundtrip_witness :
    hdr9w ≠ [] ∧
    (∀ fields ∈ hdr9w :: l4w.map
        (renderDRow String.data (fun _ => ['q']) (fun _ => ['c'])
          (fun _ => ['t']) (fun _ => ['n'])),
      ∀ cell ∈ fields, ',' ∉ cell ∧ '\n' ∉ cell) ∧
    (readCsv (writeCsv hdr9w (l4w.map
        (renderDRow String.data (fun _ => ['q']) (fun _ => ['c'])
          (fun _ => ['t']) (fun _ => ['n']))))
      = hdr9w :: l4w.map
        (renderDRow String.data (fun _ => ['q']) (fun _ => ['c'])
          (fun _ => ['t']) (fun _ => ['n'])) ∧
    (readCsv (writeCsv hdr9w (l4w.map
        (renderDRow String.data (fun _ => ['q']) (fun _ => ['c'])
          (fun _ => ['t']) (fun _ => ['n']))))).length = l4w.length + 1) :=
  ⟨by decide, by decide,
    export_reload_roundtrip hdr9w l4w String.data (fun _ => ['q'])
      (fun _ => ['c']) (fun _ => ['t']) (fun _ => ['n'])
      (by decide) (by decide)⟩

end Preproc
